import Mathlib

/-!
Verification of the llm-council backend council-orchestration engine:
a shallow embedding of the ranking parser, aggregate scorer, label
assignment, gateway client and SSE event stream of
`src/backend/src/council/council.controller.ts` and the
`OpenRouterService` files, with proofs about them.

Text is modelled as `List Char`.  The JavaScript regular expressions
used by the source are simple (fixed literals plus the classes `\d`,
`\s`, `[A-Z]`), so matching is embedded as explicit left-to-right
scanners with the non-overlapping leftmost-match semantics of
`String.prototype.match` with the `g` flag.  For these patterns greedy
matching of `\d+` and `\s*` needs no backtracking, because the character
after the digits must be `.` (not a digit) and the character after the
whitespace must be `R` (not whitespace).

JavaScript plain objects used as dictionaries (`labelToModel`,
`modelPositions`, the parallel-query result) are modelled as
insertion-ordered association lists, which is the enumeration order of
`Object.entries` for the non-index string keys the system uses.
-/

namespace LlmCouncil

/-- `[A-Z]` character class. -/
def isUpperAZ (c : Char) : Bool := 'A' ≤ c && c ≤ 'Z'

/-- `\d` character class. -/
def isDigit09 (c : Char) : Bool := '0' ≤ c && c ≤ '9'

/-- JavaScript `\s` character class (ASCII whitespace plus the Unicode
space separators, NBSP, BOM and the line/paragraph separators). -/
def isJsSpace (c : Char) : Bool :=
  c = ' ' || c = '\t' || c = '\n' || c = '\r' ||
  c = Char.ofNat 0x0b || c = Char.ofNat 0x0c ||
  c = Char.ofNat 0xa0 || c = Char.ofNat 0x1680 ||
  (Char.ofNat 0x2000 ≤ c && c ≤ Char.ofNat 0x200a) ||
  c = Char.ofNat 0x2028 || c = Char.ofNat 0x2029 ||
  c = Char.ofNat 0x202f || c = Char.ofNat 0x205f ||
  c = Char.ofNat 0x3000 || c = Char.ofNat 0xfeff

/-- Does `pat` occur at the start of `s`? -/
def startsWithL : List Char → List Char → Bool
  | [], _ => true
  | _ :: _, [] => false
  | p :: ps, c :: cs => p = c && startsWithL ps cs

/-- The literal marker `FINAL RANKING:` searched for by the parser. -/
def finalRankingMarker : List Char := "FINAL RANKING:".toList

/-- The literal `Response ` that the `Response [A-Z]` pattern starts with. -/
def responseTag : List Char := "Response ".toList

/-- One attempt of the regex `Response [A-Z]` at the head of `s`: on
success returns the matched letter and the remainder of the text. -/
def tryResponseTok (s : List Char) : Option (Char × List Char) :=
  if startsWithL responseTag s then
    match s.drop 9 with
    | c :: rest => if isUpperAZ c then some (c, rest) else none
    | [] => none
  else none

/-- One attempt of the regex `\d+\.\s*Response [A-Z]` at the head of
`s`.  Returns the full matched text and the remainder. -/
def tryNumbered (s : List Char) : Option (List Char × List Char) :=
  let ds := s.takeWhile isDigit09
  if ds.isEmpty then none
  else
    match s.drop ds.length with
    | '.' :: r1 =>
      let sp := r1.takeWhile isJsSpace
      let r2 := r1.drop sp.length
      match tryResponseTok r2 with
      | some (u, r3) => some (ds ++ '.' :: (sp ++ responseTag ++ [u]), r3)
      | none => none
    | _ => none

/-- All matches of `Response [A-Z]` (the `g`-flag scan: leftmost,
non-overlapping, continuing after each match).  `fuel` bounds the
number of scanning steps; `fuel = s.length` is always enough, since
every step consumes at least one character. -/
def respScan : Nat → List Char → List (List Char)
  | 0, _ => []
  | _ + 1, [] => []
  | fuel + 1, c :: cs =>
    match tryResponseTok (c :: cs) with
    | some (u, rest) => (responseTag ++ [u]) :: respScan fuel rest
    | none => respScan fuel cs

/-- `text.match(/Response [A-Z]/g)`, as the (possibly empty) list of
matches. -/
def respMatches (s : List Char) : List (List Char) := respScan s.length s

/-- The `g`-flag scan for `\d+\.\s*Response [A-Z]`. -/
def numScan : Nat → List Char → List (List Char)
  | 0, _ => []
  | _ + 1, [] => []
  | fuel + 1, c :: cs =>
    match tryNumbered (c :: cs) with
    | some (m, rest) => m :: numScan fuel rest
    | none => numScan fuel cs

/-- `text.match(/\d+\.\s*Response [A-Z]/g)`, as the (possibly empty)
list of matches. -/
def numMatches (s : List Char) : List (List Char) := numScan s.length s

/-- First match of `Response [A-Z]` in `s` (`m.match(/Response [A-Z]/)`
without the `g` flag), as used on each numbered match. -/
def firstResp : Nat → List Char → Option (List Char)
  | 0, _ => none
  | _ + 1, [] => none
  | fuel + 1, c :: cs =>
    match tryResponseTok (c :: cs) with
    | some (u, _) => some (responseTag ++ [u])
    | none => firstResp fuel cs

/-- `m.match(/Response [A-Z]/)` as an optional match. -/
def firstRespMatch (s : List Char) : Option (List Char) := firstResp s.length s

/-- `text.includes('FINAL RANKING:')`. -/
def containsMarker : List Char → Bool
  | [] => false
  | c :: cs => startsWithL finalRankingMarker (c :: cs) || containsMarker cs

/-- `String.prototype.split` on the marker: scans left to right for
non-overlapping occurrences, collecting the segment between consecutive
occurrences.  `acc` holds the current segment reversed; `fuel ≥ length`
is always enough. -/
def splitAux : Nat → List Char → List Char → List (List Char)
  | 0, acc, rest => [acc.reverse ++ rest]
  | _ + 1, acc, [] => [acc.reverse]
  | fuel + 1, acc, c :: cs =>
    if startsWithL finalRankingMarker (c :: cs) then
      acc.reverse :: splitAux fuel [] ((c :: cs).drop finalRankingMarker.length)
    else
      splitAux fuel (c :: acc) cs

/-- `rankingText.split('FINAL RANKING:')`. -/
def splitMarker (s : List Char) : List (List Char) := splitAux s.length [] s

/-- `parseRankingFromText` of `council.controller.ts` (lines 288-319),
on `List Char`: if the marker occurs, look at `parts[1]` of the split;
prefer the numbered-list matches there (each reduced to its `Response X`
part and empty reductions filtered out), then bare `Response [A-Z]`
matches there; if neither matches — or the marker is absent — fall
through to the bare scan of the whole text. -/
def parseCore (s : List Char) : List (List Char) :=
  if containsMarker s then
    let parts := splitMarker s
    if 2 ≤ parts.length then
      let rankingSection := parts.getD 1 []
      match numMatches rankingSection with
      | m :: ms =>
        ((m :: ms).map fun t => (firstRespMatch t).getD []).filter fun t => !t.isEmpty
      | [] =>
        match respMatches rankingSection with
        | m :: ms => m :: ms
        | [] => respMatches s
    else respMatches s
  else respMatches s

/-- `parseRankingFromText` on `String`. -/
def parseRankingFromText (s : String) : List String :=
  (parseCore s.toList).map fun t => String.mk t

/-- Everything after the first occurrence of `FINAL RANKING:`, when the
marker occurs at all. -/
def afterFirstMarker : List Char → Option (List Char)
  | [] => none
  | c :: cs =>
    if startsWithL finalRankingMarker (c :: cs) then
      some ((c :: cs).drop finalRankingMarker.length)
    else afterFirstMarker cs

/-- The text before the first occurrence of `FINAL RANKING:` (all of the
text when the marker does not occur). -/
def beforeFirstMarker : List Char → List Char
  | [] => []
  | c :: cs =>
    if startsWithL finalRankingMarker (c :: cs) then []
    else c :: beforeFirstMarker cs

/-- The tail of the split after its first segment. -/
def splitTail (s : List Char) : List (List Char) :=
  match afterFirstMarker s with
  | none => []
  | some t => splitMarker t

theorem containsMarker_eq_isSome (s : List Char) :
    containsMarker s = (afterFirstMarker s).isSome := by
  induction s with
  | nil => rfl
  | cons c cs ih =>
    by_cases h : startsWithL finalRankingMarker (c :: cs) = true
    · simp [containsMarker, afterFirstMarker, h]
    · simp only [containsMarker, afterFirstMarker]
      rw [if_neg h]
      simp [h, ih]

theorem splitAux_eq :
    ∀ (fuel : Nat) (acc s : List Char), s.length ≤ fuel →
      splitAux fuel acc s =
        (acc.reverse ++ beforeFirstMarker s) :: splitTail s := by
  intro fuel
  induction fuel using Nat.strong_induction_on with
  | _ fuel ih =>
    intro acc s hs
    match fuel, s with
    | 0, [] =>
      simp [splitAux, beforeFirstMarker, splitTail, afterFirstMarker]
    | 0, c :: cs =>
      simp at hs
    | f + 1, [] =>
      simp [splitAux, beforeFirstMarker, splitTail, afterFirstMarker]
    | f + 1, c :: cs =>
      by_cases h : startsWithL finalRankingMarker (c :: cs) = true
      · have hb : beforeFirstMarker (c :: cs) = [] := by
          rw [beforeFirstMarker, if_pos h]
        have ha : afterFirstMarker (c :: cs) =
            some ((c :: cs).drop finalRankingMarker.length) := by
          rw [afterFirstMarker, if_pos h]
        have hlen : ((c :: cs).drop finalRankingMarker.length).length ≤ f := by
          simp only [List.length_drop, List.length_cons]
          have h2 : cs.length ≤ f := by simpa using hs
          have h3 : finalRankingMarker.length = 14 := rfl
          omega
        have h1 := ih f (Nat.lt_succ_self f) [] _ hlen
        have h2 := ih ((c :: cs).drop finalRankingMarker.length).length
          (Nat.lt_succ_of_le hlen) [] ((c :: cs).drop finalRankingMarker.length) le_rfl
        have htail : splitTail (c :: cs) =
            splitMarker ((c :: cs).drop finalRankingMarker.length) := by
          unfold splitTail
          rw [ha]
        rw [splitAux, if_pos h, h1, hb, htail]
        unfold splitMarker
        rw [h2]
        simp
      · have hlen : cs.length ≤ f := by simpa using hs
        have hb : beforeFirstMarker (c :: cs) = c :: beforeFirstMarker cs := by
          rw [beforeFirstMarker, if_neg h]
        have htail : splitTail (c :: cs) = splitTail cs := by
          unfold splitTail
          rw [show afterFirstMarker (c :: cs) = afterFirstMarker cs by
                rw [afterFirstMarker, if_neg h]]
        rw [splitAux, if_neg h]
        rw [ih f (Nat.lt_succ_self f) (c :: acc) cs hlen, hb, htail]
        simp

theorem splitMarker_eq (s : List Char) :
    splitMarker s = beforeFirstMarker s :: splitTail s := by
  have := splitAux_eq s.length [] s le_rfl
  simpa [splitMarker] using this

/-- The parsing behaviour `parseCore` actually has, phrased through the
first and second occurrences of the marker: `parts[1]` of the split is
the text strictly between the first occurrence and the next one (all of
the remaining text when the marker occurs once), and when nothing
matches inside that section the scan falls back to the whole text. -/
def amendedParseCore (s : List Char) : List (List Char) :=
  match afterFirstMarker s with
  | some t =>
    let sec := beforeFirstMarker t
    match numMatches sec with
    | m :: ms =>
      ((m :: ms).map fun u => (firstRespMatch u).getD []).filter fun u => !u.isEmpty
    | [] =>
      match respMatches sec with
      | m :: ms => m :: ms
      | [] => respMatches s
  | none => respMatches s

/-- `amendedParseCore` on `String`. -/
def amendedParse (s : String) : List String :=
  (amendedParseCore s.toList).map fun t => String.mk t

/-- The parsing algorithm exactly as the specification words it: with
the marker present, the search area is everything after the first
occurrence (a single split), and when nothing matches in that tail the
result is the empty sequence.  Written from the claim, for comparison
with `parseCore`. -/
def claimParseCore (s : List Char) : List (List Char) :=
  match afterFirstMarker s with
  | some t =>
    match numMatches t with
    | m :: ms =>
      ((m :: ms).map fun u => (firstRespMatch u).getD []).filter fun u => !u.isEmpty
    | [] => respMatches t
  | none => respMatches s

/-- `claimParseCore` on `String`. -/
def claimParse (s : String) : List String :=
  (claimParseCore s.toList).map fun t => String.mk t

theorem parseCore_eq_amendedParseCore (s : List Char) :
    parseCore s = amendedParseCore s := by
  cases h : afterFirstMarker s with
  | none =>
    have hc : containsMarker s = false := by
      rw [containsMarker_eq_isSome, h]
      rfl
    unfold parseCore amendedParseCore
    rw [h, hc]
    simp
  | some t =>
    have hc : containsMarker s = true := by
      rw [containsMarker_eq_isSome, h]
      rfl
    have htail : splitTail s = splitMarker t := by
      unfold splitTail
      rw [h]
    have hsplit : splitMarker s =
        beforeFirstMarker s :: beforeFirstMarker t :: splitTail t := by
      rw [splitMarker_eq s, htail, splitMarker_eq t]
    unfold parseCore amendedParseCore
    rw [h, hc, hsplit]
    rw [if_pos rfl]
    rw [if_pos (by simp : 2 ≤ (beforeFirstMarker s :: beforeFirstMarker t :: splitTail t).length)]
    rfl

theorem parseRankingFromText_eq_amendedParse (s : String) :
    parseRankingFromText s = amendedParse s := by
  unfold parseRankingFromText amendedParse
  rw [parseCore_eq_amendedParseCore]

/-- C1 counterexample: the claim prescribes taking everything after the
first occurrence of `FINAL RANKING:` as the search area and returning
the empty sequence when that area has no match.  On this input the code
instead searches only `parts[1]` of the split — the segment strictly
between the first two occurrences of the marker — finds nothing there,
and falls back to scanning the entire text, so it returns both bare
tokens (including one from before the marker) while the claimed
algorithm returns the numbered match after the first occurrence. -/
theorem C1_parse_priority_counterexample :
    parseRankingFromText
        "Response C. FINAL RANKING: x FINAL RANKING: 1. Response A" =
      ["Response C", "Response A"] ∧
    claimParse "Response C. FINAL RANKING: x FINAL RANKING: 1. Response A" =
      ["Response A"] ∧
    parseRankingFromText
        "Response C. FINAL RANKING: x FINAL RANKING: 1. Response A" ≠
      claimParse "Response C. FINAL RANKING: x FINAL RANKING: 1. Response A" := by
  exact ⟨by decide, by decide, by decide⟩

/-- C1 (amended): for every input string, `parseRankingFromText` follows
this priority algorithm: if the string contains `FINAL RANKING:`, the
search section is the text strictly between the first occurrence of the
marker and the next occurrence (to the end of the string when the marker
occurs only once); within that section it returns the `Response X` parts
of the numbered-list matches when at least one exists, otherwise all
bare `Response [A-Z]` tokens of the section when at least one exists,
otherwise it falls back to all bare tokens of the entire string; if the
marker is absent it returns all bare tokens of the entire string; if
nothing matches anywhere, the result is empty.  In particular, on
`"...FINAL RANKING:\n1. Response B\n2. Response A\n"` it returns
`["Response B", "Response A"]`. -/
theorem C1_parse_priority_amended :
    (∀ s : String, parseRankingFromText s = amendedParse s) ∧
    parseRankingFromText "...FINAL RANKING:\n1. Response B\n2. Response A\n" =
      ["Response B", "Response A"] :=
  ⟨parseRankingFromText_eq_amendedParse, by decide⟩

/-! ### Data model (`council.interface.ts`) -/

/-- One successful Stage 1 answer. -/
structure Stage1Result where
  model : String
  response : String
  deriving DecidableEq, Repr

/-- One successful Stage 2 ranking. -/
structure Stage2Result where
  model : String
  ranking : String
  parsed_ranking : List String
  deriving DecidableEq, Repr

/-- The chairman synthesis. -/
structure Stage3Result where
  model : String
  response : String
  deriving DecidableEq, Repr

/-- One aggregate-scoring entry.  `average_rank` is a JavaScript number;
it is modelled as a rational. -/
structure AggregateRanking where
  model : String
  average_rank : ℚ
  rankings_count : Nat
  deriving DecidableEq, Repr

/-! ### Plain JS objects as insertion-ordered association lists -/

/-- Reading `o[k]` on a plain object. -/
def objGet {α : Type} (o : List (String × α)) (k : String) : Option α :=
  match o with
  | [] => none
  | (k0, v0) :: rest => if k0 = k then some v0 else objGet rest k

/-- Writing `o[k] = v` on a plain object: an existing key is updated in
place, a new key is appended (insertion order). -/
def objSet {α : Type} (o : List (String × α)) (k : String) (v : α) :
    List (String × α) :=
  match o with
  | [] => [(k, v)]
  | (k0, v0) :: rest =>
    if k0 = k then (k0, v) :: rest else (k0, v0) :: objSet rest k v

/-! ### Aggregate scorer (`calculateAggregateRankings`, lines 421-460) -/

/-- The body of `modelPositions[modelName].push(position + 1)` together
with the creation of a missing entry. -/
def pushPos (o : List (String × List Nat)) (m : String) (p : Nat) :
    List (String × List Nat) :=
  match o with
  | [] => [(m, [p])]
  | (k, ps) :: rest =>
    if k = m then (k, ps ++ [p]) :: rest else (k, ps) :: pushPos rest m p

/-- The position-collection loop of `calculateAggregateRankings`: every
raw ranking text is re-parsed, and for the label at zero-based position
`p` the 1-indexed position `p + 1` is recorded for the model that
`labelToModel` resolves the label to; unresolvable labels are skipped. -/
def recordPositions (stage2Results : List Stage2Result)
    (labelToModel : List (String × String)) : List (String × List Nat) :=
  stage2Results.foldl
    (fun recs r =>
      ((parseRankingFromText r.ranking).enum).foldl
        (fun recs2 pl =>
          match objGet labelToModel pl.2 with
          | some modelName => pushPos recs2 modelName (pl.1 + 1)
          | none => recs2)
        recs)
    []

/-- `Math.round(x * 100) / 100` on rationals (`Math.round` rounds a half
toward positive infinity). -/
def round2 (q : ℚ) : ℚ := (⌊q * 100 + 1 / 2⌋ : ℚ) / 100

/-- The `for...of Object.entries(modelPositions)` loop: every model with
at least one recorded position yields one entry with the rounded mean
and the count. -/
def aggregateEntries (recs : List (String × List Nat)) :
    List AggregateRanking :=
  recs.filterMap fun mp =>
    if 0 < mp.2.length then
      some ⟨mp.1, round2 ((mp.2.sum : ℚ) / (mp.2.length : ℚ)), mp.2.length⟩
    else none

/-- `calculateAggregateRankings`: collect 1-indexed positions per model,
keep the models with at least one position, average and round, then sort
ascending by average rank.  `Array.prototype.sort` is stable; it is
modelled by the (stable) insertion sort on the comparator's order. -/
def calculateAggregateRankings (stage2Results : List Stage2Result)
    (labelToModel : List (String × String)) : List AggregateRanking :=
  List.insertionSort (fun a b => a.average_rank ≤ b.average_rank)
    (aggregateEntries (recordPositions stage2Results labelToModel))

/-! ### Claim-side recomputation of the aggregate scorer -/

/-- The stream of (resolved model, 1-indexed position) pairs contributed
by all rankings, in encounter order: per result, per parsed label. -/
def positionStream (stage2Results : List Stage2Result)
    (labelToModel : List (String × String)) : List (String × Nat) :=
  stage2Results.flatMap fun r =>
    ((parseRankingFromText r.ranking).enum).filterMap fun pl =>
      (objGet labelToModel pl.2).map fun m => (m, pl.1 + 1)

/-- The positions a given stream records for model `m`, in order. -/
def streamPositions (st : List (String × Nat)) (m : String) : List Nat :=
  st.filterMap fun kp => if kp.1 = m then some kp.2 else none

/-- All 1-indexed positions recorded for model `m` (claim-side). -/
def specPositions (stage2Results : List Stage2Result)
    (labelToModel : List (String × String)) (m : String) : List Nat :=
  streamPositions (positionStream stage2Results labelToModel) m

/-- Index of the first contribution of model `m` in the stream: the
first-seen order of the models. -/
def firstSeenIdx (stage2Results : List Stage2Result)
    (labelToModel : List (String × String)) (m : String) : Nat :=
  ((positionStream stage2Results labelToModel).map Prod.fst).indexOf m

/-! ### Lemmas about the aggregate scorer -/

/-- Folding the position stream through `pushPos`. -/
def recordFold (st : List (String × Nat))
    (o : List (String × List Nat)) : List (String × List Nat) :=
  st.foldl (fun recs kp => pushPos recs kp.1 kp.2) o

theorem objGet_pushPos (o : List (String × List Nat)) (m : String)
    (p : Nat) (m' : String) :
    objGet (pushPos o m p) m' =
      if m = m' then some ((objGet o m').getD [] ++ [p])
      else objGet o m' := by
  induction o with
  | nil =>
    by_cases h : m = m' <;> simp [pushPos, objGet, h]
  | cons kv rest ih =>
    obtain ⟨k, ps⟩ := kv
    by_cases hk : k = m
    · subst hk
      by_cases h : k = m' <;> simp [pushPos, objGet, h]
    · by_cases h : k = m'
      · subst h
        have hm : ¬ m = k := fun hh => hk hh.symm
        simp [pushPos, objGet, hk, hm]
      · simp [pushPos, objGet, hk, h, ih]

theorem keys_pushPos (o : List (String × List Nat)) (m : String) (p : Nat) :
    (pushPos o m p).map Prod.fst =
      if m ∈ o.map Prod.fst then o.map Prod.fst
      else o.map Prod.fst ++ [m] := by
  induction o with
  | nil => simp [pushPos]
  | cons kv rest ih =>
    obtain ⟨k, ps⟩ := kv
    by_cases hk : k = m
    · subst hk
      simp [pushPos]
    · have : ¬ m = k := fun hh => hk hh.symm
      by_cases hmem : m ∈ rest.map Prod.fst <;>
        simp [pushPos, hk, this, hmem, ih]

theorem pushPos_snd_ne_nil (o : List (String × List Nat)) (m : String)
    (p : Nat) (h : ∀ kp ∈ o, kp.2 ≠ []) :
    ∀ kp ∈ pushPos o m p, kp.2 ≠ [] := by
  induction o with
  | nil =>
    intro kp hkp
    simp [pushPos] at hkp
    simp [hkp]
  | cons kv rest ih =>
    obtain ⟨k, ps⟩ := kv
    intro kp hkp
    by_cases hk : k = m
    · subst hk
      simp [pushPos] at hkp
      rcases hkp with h1 | h2
      · simp [h1]
      · exact h kp (List.mem_cons_of_mem _ h2)
    · simp [pushPos, hk] at hkp
      rcases hkp with h1 | h2
      · exact h kp (by simp [h1])
      · exact ih (fun x hx => h x (List.mem_cons_of_mem _ hx)) kp h2

theorem objGet_recordFold (st : List (String × Nat)) :
    ∀ (o : List (String × List Nat)) (m : String),
      objGet (recordFold st o) m =
        match objGet o m with
        | some ps => some (ps ++ streamPositions st m)
        | none =>
          if streamPositions st m = [] then none
          else some (streamPositions st m) := by
  induction st with
  | nil =>
    intro o m
    cases h : objGet o m <;> simp [recordFold, streamPositions, h]
  | cons kp rest ih =>
    intro o m
    obtain ⟨k, p⟩ := kp
    have hstep : recordFold ((k, p) :: rest) o = recordFold rest (pushPos o k p) := rfl
    rw [hstep, ih (pushPos o k p) m, objGet_pushPos]
    by_cases hk : k = m
    · have hsp : streamPositions ((k, p) :: rest) m = p :: streamPositions rest m := by
        simp [streamPositions, hk]
      rw [if_pos hk, hsp]
      cases h : objGet o m <;> simp [h]
    · have hsp : streamPositions ((k, p) :: rest) m = streamPositions rest m := by
        simp [streamPositions, hk]
      rw [if_neg hk, hsp]

/-- First occurrences of the elements of `ks` that are not in `seen`,
in order. -/
def firstOccur (ks : List String) (seen : List String) : List String :=
  match ks with
  | [] => []
  | k :: rest =>
    if k ∈ seen then firstOccur rest seen
    else k :: firstOccur rest (seen ++ [k])

theorem keys_recordFold (st : List (String × Nat)) :
    ∀ o : List (String × List Nat),
      (recordFold st o).map Prod.fst =
        o.map Prod.fst ++ firstOccur (st.map Prod.fst) (o.map Prod.fst) := by
  induction st with
  | nil => intro o; simp [recordFold, firstOccur]
  | cons kp rest ih =>
    intro o
    obtain ⟨k, p⟩ := kp
    have hstep : recordFold ((k, p) :: rest) o = recordFold rest (pushPos o k p) := rfl
    rw [hstep, ih (pushPos o k p), keys_pushPos]
    by_cases hmem : k ∈ o.map Prod.fst
    · simp [hmem, firstOccur]
    · simp [hmem, firstOccur]

theorem mem_firstOccur (ks : List String) :
    ∀ (seen : List String) (x : String), x ∈ firstOccur ks seen →
      x ∈ ks ∧ x ∉ seen := by
  induction ks with
  | nil => intro seen x hx; simp [firstOccur] at hx
  | cons k rest ih =>
    intro seen x hx
    by_cases hk : k ∈ seen
    · simp [firstOccur, hk] at hx
      obtain ⟨h1, h2⟩ := ih seen x hx
      exact ⟨List.mem_cons_of_mem _ h1, h2⟩
    · simp [firstOccur, hk] at hx
      rcases hx with rfl | hx
      · exact ⟨List.mem_cons_self _ _, hk⟩
      · obtain ⟨h1, h2⟩ := ih (seen ++ [k]) x hx
        refine ⟨List.mem_cons_of_mem _ h1, fun hs => h2 ?_⟩
        simp [hs]

theorem nodup_firstOccur (ks : List String) :
    ∀ seen : List String, (firstOccur ks seen).Nodup := by
  induction ks with
  | nil => intro seen; simp [firstOccur]
  | cons k rest ih =>
    intro seen
    by_cases hk : k ∈ seen
    · simpa [firstOccur, hk] using ih seen
    · rw [firstOccur, if_neg hk]
      refine List.Nodup.cons ?_ (ih (seen ++ [k]))
      intro hmem
      have := (mem_firstOccur rest (seen ++ [k]) k hmem).2
      simp at this

theorem pairwise_firstOccur (ks : List String) :
    ∀ seen : List String,
      (firstOccur ks seen).Pairwise
        (fun a b => ks.indexOf a < ks.indexOf b) := by
  induction ks with
  | nil => intro seen; simp [firstOccur]
  | cons k rest ih =>
    intro seen
    by_cases hk : k ∈ seen
    · rw [firstOccur, if_pos hk]
      refine List.Pairwise.imp_of_mem ?_ (ih seen)
      intro a b ha hb hab
      have hak : k ≠ a := fun h => (mem_firstOccur rest seen a ha).2 (h ▸ hk)
      have hbk : k ≠ b := fun h => (mem_firstOccur rest seen b hb).2 (h ▸ hk)
      rw [List.indexOf_cons_ne rest hak, List.indexOf_cons_ne rest hbk]
      exact Nat.succ_lt_succ hab
    · rw [firstOccur, if_neg hk]
      refine List.Pairwise.cons ?_ ?_
      · intro b hb
        have hbk : k ≠ b := by
          intro h
          have := (mem_firstOccur rest (seen ++ [k]) b hb).2
          simp [← h] at this
        rw [List.indexOf_cons_self, List.indexOf_cons_ne rest hbk]
        exact Nat.succ_pos _
      · refine List.Pairwise.imp_of_mem ?_ (ih (seen ++ [k]))
        intro a b ha hb hab
        have hak : k ≠ a := by
          intro h
          have := (mem_firstOccur rest (seen ++ [k]) a ha).2
          simp [← h] at this
        have hbk : k ≠ b := by
          intro h
          have := (mem_firstOccur rest (seen ++ [k]) b hb).2
          simp [← h] at this
        rw [List.indexOf_cons_ne rest hak, List.indexOf_cons_ne rest hbk]
        exact Nat.succ_lt_succ hab

theorem recordFold_append (a b : List (String × Nat))
    (o : List (String × List Nat)) :
    recordFold (a ++ b) o = recordFold b (recordFold a o) := by
  simp [recordFold, List.foldl_append]

theorem inner_foldl_eq (l2m : List (String × String))
    (l : List (Nat × String)) :
    ∀ o : List (String × List Nat),
      l.foldl
        (fun recs2 pl =>
          match objGet l2m pl.2 with
          | some modelName => pushPos recs2 modelName (pl.1 + 1)
          | none => recs2) o =
      recordFold
        (l.filterMap fun pl => (objGet l2m pl.2).map fun m => (m, pl.1 + 1))
        o := by
  induction l with
  | nil => intro o; rfl
  | cons pl rest ih =>
    intro o
    cases h : objGet l2m pl.2 with
    | none => simp [recordFold, List.filterMap_cons, h, ih o]
    | some mn =>
      simp only [List.foldl_cons, List.filterMap_cons, h, Option.map_some]
      rw [ih (pushPos o mn (pl.1 + 1))]
      rfl

theorem recordPositions_eq_recordFold (results : List Stage2Result)
    (l2m : List (String × String)) :
    recordPositions results l2m =
      recordFold (positionStream results l2m) [] := by
  suffices h : ∀ o : List (String × List Nat),
      results.foldl
        (fun recs r =>
          ((parseRankingFromText r.ranking).enum).foldl
            (fun recs2 pl =>
              match objGet l2m pl.2 with
              | some modelName => pushPos recs2 modelName (pl.1 + 1)
              | none => recs2)
            recs) o =
      recordFold (positionStream results l2m) o by
    exact h []
  induction results with
  | nil => intro o; rfl
  | cons r rs ih =>
    intro o
    rw [List.foldl_cons, inner_foldl_eq l2m _ o, ih]
    rw [show positionStream (r :: rs) l2m =
          (((parseRankingFromText r.ranking).enum).filterMap fun pl =>
            (objGet l2m pl.2).map fun m => (m, pl.1 + 1)) ++
          positionStream rs l2m by simp [positionStream]]
    rw [recordFold_append]

theorem mem_keys_iff_isSome {α : Type} (o : List (String × α)) (m : String) :
    m ∈ o.map Prod.fst ↔ (objGet o m).isSome := by
  induction o with
  | nil => simp [objGet]
  | cons kv rest ih =>
    obtain ⟨k, v⟩ := kv
    by_cases h : k = m
    · subst h
      simp [objGet]
    · have h2 : ¬ m = k := fun hh => h hh.symm
      simp [objGet, h, h2, ih]

theorem objGet_eq_of_mem {α : Type} :
    ∀ (o : List (String × α)) (k : String) (v : α),
      (o.map Prod.fst).Nodup → (k, v) ∈ o → objGet o k = some v := by
  intro o
  induction o with
  | nil =>
    intro k v _ hmem
    simp at hmem
  | cons kv rest ih =>
    intro k v hnd hmem
    obtain ⟨k0, v0⟩ := kv
    rw [List.map_cons] at hnd
    have hnd2 := List.nodup_cons.mp hnd
    rcases List.mem_cons.mp hmem with heq | hmem2
    · have h1 : k0 = k := (Prod.ext_iff.mp heq.symm).1
      have h2 : v0 = v := (Prod.ext_iff.mp heq.symm).2
      subst h1
      subst h2
      simp [objGet]
    · have hkmem : k ∈ rest.map Prod.fst :=
        List.mem_map.mpr ⟨(k, v), hmem2, rfl⟩
      have hne : ¬ k0 = k := fun h => hnd2.1 (h ▸ hkmem)
      simp only [objGet, if_neg hne]
      exact ih k v hnd2.2 hmem2

theorem recordFold_snd_ne_nil (st : List (String × Nat)) :
    ∀ o : List (String × List Nat), (∀ kp ∈ o, kp.2 ≠ []) →
      ∀ kp ∈ recordFold st o, kp.2 ≠ [] := by
  induction st with
  | nil => intro o h; exact h
  | cons kp rest ih =>
    intro o h
    exact ih (pushPos o kp.1 kp.2) (pushPos_snd_ne_nil o kp.1 kp.2 h)

theorem aggregateEntries_eq_map (recs : List (String × List Nat))
    (h : ∀ kp ∈ recs, kp.2 ≠ []) :
    aggregateEntries recs = recs.map fun mp =>
      ⟨mp.1, round2 ((mp.2.sum : ℚ) / (mp.2.length : ℚ)), mp.2.length⟩ := by
  induction recs with
  | nil => rfl
  | cons kp rest ih =>
    have h1 : kp.2 ≠ [] := h kp (List.mem_cons_self _ _)
    have h2 : 0 < kp.2.length := List.length_pos.mpr h1
    simp only [aggregateEntries, List.filterMap_cons, if_pos h2, List.map_cons]
    rw [show rest.filterMap _ = aggregateEntries rest from rfl,
      ih fun x hx => h x (List.mem_cons_of_mem _ hx)]

theorem pairwise_orderedInsert {α : Type} (r : α → α → Prop) [DecidableRel r]
    (T : α → α → Prop) (x : α) :
    ∀ ys : List α, ys.Pairwise T → (∀ y ∈ ys, T x y) →
      (∀ y ∈ ys, ¬ r x y → T y x) →
      (List.orderedInsert r x ys).Pairwise T := by
  intro ys
  induction ys with
  | nil =>
    intro _ _ _
    simp
  | cons y ys ih =>
    intro h1 h2 h3
    rw [List.orderedInsert]
    by_cases hr : r x y
    · rw [if_pos hr]
      exact List.Pairwise.cons h2 h1
    · rw [if_neg hr]
      have hy := List.pairwise_cons.mp h1
      refine List.Pairwise.cons ?_
        (ih hy.2 (fun z hz => h2 z (List.mem_cons_of_mem _ hz))
          (fun z hz hrz => h3 z (List.mem_cons_of_mem _ hz) hrz))
      intro b hb
      rcases (List.mem_orderedInsert r).mp hb with rfl | hbm
      · exact h3 y (List.mem_cons_self _ _) hr
      · exact hy.1 b hbm

theorem pairwise_insertionSort {α : Type} (r : α → α → Prop) [DecidableRel r]
    (T : α → α → Prop) (hTr : ∀ a b, ¬ r a b → T b a) :
    ∀ l : List α, l.Pairwise T → (List.insertionSort r l).Pairwise T := by
  intro l
  induction l with
  | nil =>
    intro _
    simp
  | cons x xs ih =>
    intro h
    rw [List.insertionSort]
    have hx := List.pairwise_cons.mp h
    refine pairwise_orderedInsert r T x _ (ih hx.2) ?_ ?_
    · intro y hy
      exact hx.1 y ((List.mem_insertionSort r).mp hy)
    · intro y hy hr
      exact hTr x y hr

theorem round2_three_halves : round2 (3 / 2) = 3 / 2 := by
  unfold round2
  rw [show ((3 : ℚ) / 2 * 100 + 1 / 2) = 301 / 2 by norm_num]
  rw [show (⌊(301 / 2 : ℚ)⌋ : ℤ) = 150 from Int.floor_eq_iff.mpr (by norm_num)]
  norm_num

theorem round2_three : round2 3 = 3 := by
  unfold round2
  rw [show ((3 : ℚ) * 100 + 1 / 2) = 601 / 2 by norm_num]
  rw [show (⌊(601 / 2 : ℚ)⌋ : ℤ) = 300 from Int.floor_eq_iff.mpr (by norm_num)]
  norm_num

/-- Concrete evaluation of the specification's aggregate-scoring
example: rankings `[B, A]` and `[A, B]` over
`{Response A ↦ m1, Response B ↦ m2}`. -/
theorem calcAgg_example_eval :
    calculateAggregateRankings
        [⟨"ranker1", "FINAL RANKING:\n1. Response B\n2. Response A", []⟩,
         ⟨"ranker2", "FINAL RANKING:\n1. Response A\n2. Response B", []⟩]
        [("Response A", "m1"), ("Response B", "m2")] =
      [⟨"m2", 3 / 2, 2⟩, ⟨"m1", 3 / 2, 2⟩] := by
  have h1 : recordPositions
      [⟨"ranker1", "FINAL RANKING:\n1. Response B\n2. Response A", []⟩,
       ⟨"ranker2", "FINAL RANKING:\n1. Response A\n2. Response B", []⟩]
      [("Response A", "m1"), ("Response B", "m2")] =
      [("m2", [1, 2]), ("m1", [2, 1])] := by decide
  unfold calculateAggregateRankings
  rw [h1]
  have h2 : aggregateEntries [("m2", [1, 2]), ("m1", [2, 1])] =
      [⟨"m2", 3 / 2, 2⟩, ⟨"m1", 3 / 2, 2⟩] := by
    simp only [aggregateEntries, List.filterMap_cons, List.filterMap_nil]
    norm_num [round2_three_halves]
  rw [h2]
  have hle : (3 : ℚ) / 2 ≤ 3 / 2 := le_refl _
  simp [List.insertionSort, List.orderedInsert, hle]

theorem pairwise_le_sortByAvg (l : List AggregateRanking) :
    (List.insertionSort (fun a b => a.average_rank ≤ b.average_rank) l).Pairwise
      (fun a b => a.average_rank ≤ b.average_rank) := by
  haveI h1 : IsTotal AggregateRanking
      (fun a b => a.average_rank ≤ b.average_rank) :=
    ⟨fun a b => le_total _ _⟩
  haveI h2 : IsTrans AggregateRanking
      (fun a b => a.average_rank ≤ b.average_rank) :=
    ⟨fun a b c hab hbc => le_trans hab hbc⟩
  exact List.sorted_insertionSort _ l

/-- C2: `calculateAggregateRankings` re-parses each raw ranking text;
the label at zero-based position `p` records the 1-indexed position
`p + 1` for the model `labelToModel` resolves it to, silently skipping
unresolvable labels; every model with at least one recorded position
yields exactly one entry whose `average_rank` is the mean of its
positions rounded to 2 decimal places and whose `rankings_count` is the
number of recorded positions; models with no positions are omitted; the
output is sorted ascending by `average_rank` with ties in first-seen
order.  In particular, rankings `[B, A]` and `[A, B]` over
`{Response A ↦ m1, Response B ↦ m2}` give both models average rank
`1.5` with count `2`. -/
theorem C2_calculate_aggregate_rankings (results : List Stage2Result)
    (l2m : List (String × String)) :
    (((calculateAggregateRankings results l2m).map fun e => e.model).Nodup) ∧
    (∀ m : String,
      (∃ e ∈ calculateAggregateRankings results l2m, e.model = m) ↔
        specPositions results l2m m ≠ []) ∧
    (∀ e ∈ calculateAggregateRankings results l2m,
      e.average_rank =
        round2 (((specPositions results l2m e.model).sum : ℚ) /
          ((specPositions results l2m e.model).length : ℚ)) ∧
      e.rankings_count = (specPositions results l2m e.model).length) ∧
    ((calculateAggregateRankings results l2m).Pairwise fun a b =>
      a.average_rank ≤ b.average_rank) ∧
    ((calculateAggregateRankings results l2m).Pairwise fun a b =>
      a.average_rank = b.average_rank →
        firstSeenIdx results l2m a.model < firstSeenIdx results l2m b.model) ∧
    (∀ results' : List Stage2Result,
      (results.map fun r => r.ranking) = (results'.map fun r => r.ranking) →
      calculateAggregateRankings results l2m =
        calculateAggregateRankings results' l2m) ∧
    calculateAggregateRankings
        [⟨"ranker1", "FINAL RANKING:\n1. Response B\n2. Response A", []⟩,
         ⟨"ranker2", "FINAL RANKING:\n1. Response A\n2. Response B", []⟩]
        [("Response A", "m1"), ("Response B", "m2")] =
      [⟨"m2", 3 / 2, 2⟩, ⟨"m1", 3 / 2, 2⟩] := by
  have hrecs : recordPositions results l2m =
      recordFold (positionStream results l2m) [] :=
    recordPositions_eq_recordFold results l2m
  have hne : ∀ kp ∈ recordPositions results l2m, kp.2 ≠ [] := by
    rw [hrecs]
    exact recordFold_snd_ne_nil _ [] (by simp)
  have hkeys : (recordPositions results l2m).map Prod.fst =
      firstOccur ((positionStream results l2m).map Prod.fst) [] := by
    rw [hrecs, keys_recordFold]
    simp
  have hnd : ((recordPositions results l2m).map Prod.fst).Nodup := by
    rw [hkeys]
    exact nodup_firstOccur _ []
  have hget : ∀ m, objGet (recordPositions results l2m) m =
      if specPositions results l2m m = [] then none
      else some (specPositions results l2m m) := by
    intro m
    rw [hrecs, objGet_recordFold]
    rfl
  have hagg : aggregateEntries (recordPositions results l2m) =
      (recordPositions results l2m).map fun mp =>
        (⟨mp.1, round2 ((mp.2.sum : ℚ) / (mp.2.length : ℚ)),
          mp.2.length⟩ : AggregateRanking) :=
    aggregateEntries_eq_map _ hne
  have hperm : List.Perm (calculateAggregateRankings results l2m)
      (aggregateEntries (recordPositions results l2m)) :=
    List.perm_insertionSort _ _
  have haggmodels :
      (aggregateEntries (recordPositions results l2m)).map (fun e => e.model) =
        (recordPositions results l2m).map Prod.fst := by
    rw [hagg, List.map_map]
    rfl
  refine ⟨?_, ?_, ?_, ?_, ?_, ?_, ?_⟩
  · have h1 := (hperm.map fun e => e.model).nodup_iff
    rw [haggmodels] at h1
    exact h1.mpr hnd
  · intro m
    constructor
    · rintro ⟨e, he, rfl⟩
      have he2 : e ∈ aggregateEntries (recordPositions results l2m) :=
        (List.mem_insertionSort _).mp he
      have h1 : e.model ∈
          (aggregateEntries (recordPositions results l2m)).map
            (fun e => e.model) :=
        List.mem_map.mpr ⟨e, he2, rfl⟩
      rw [haggmodels, mem_keys_iff_isSome, hget e.model] at h1
      intro h0
      rw [if_pos h0] at h1
      simp at h1
    · intro hsp
      have h1 : (objGet (recordPositions results l2m) m).isSome := by
        rw [hget m, if_neg hsp]
        rfl
      rw [← mem_keys_iff_isSome, ← haggmodels] at h1
      obtain ⟨e, he, hem⟩ := List.mem_map.mp h1
      exact ⟨e, (List.mem_insertionSort _).mpr he, hem⟩
  · intro e he
    have he2 : e ∈ aggregateEntries (recordPositions results l2m) :=
      (List.mem_insertionSort _).mp he
    rw [hagg] at he2
    obtain ⟨mp, hmp, hemp⟩ := List.mem_map.mp he2
    have hobj : objGet (recordPositions results l2m) mp.1 = some mp.2 :=
      objGet_eq_of_mem _ mp.1 mp.2 hnd hmp
    rw [hget mp.1] at hobj
    by_cases h0 : specPositions results l2m mp.1 = []
    · rw [if_pos h0] at hobj
      exact absurd hobj (by simp)
    · rw [if_neg h0] at hobj
      have hps : specPositions results l2m mp.1 = mp.2 := Option.some.inj hobj
      subst hemp
      refine ⟨?_, ?_⟩ <;> simp [hps]
  · exact pairwise_le_sortByAvg _
  · have hkp : ((recordPositions results l2m).map Prod.fst).Pairwise
        (fun a b =>
          ((positionStream results l2m).map Prod.fst).indexOf a <
            ((positionStream results l2m).map Prod.fst).indexOf b) := by
      rw [hkeys]
      exact pairwise_firstOccur _ []
    rw [List.pairwise_map] at hkp
    have hbase : (aggregateEntries (recordPositions results l2m)).Pairwise
        (fun a b => firstSeenIdx results l2m a.model <
          firstSeenIdx results l2m b.model) := by
      rw [hagg, List.pairwise_map]
      exact hkp
    refine pairwise_insertionSort _ _ ?_ _ (List.Pairwise.imp ?_ hbase)
    · intro a b hr heq
      exact absurd (le_of_eq heq.symm) hr
    · intro a b h
      exact fun _ => h
  · intro results' hmap
    have hdep : ∀ rs : List Stage2Result,
        recordPositions rs l2m =
          (rs.map fun r => r.ranking).foldl
            (fun recs txt =>
              ((parseRankingFromText txt).enum).foldl
                (fun recs2 pl =>
                  match objGet l2m pl.2 with
                  | some modelName => pushPos recs2 modelName (pl.1 + 1)
                  | none => recs2) recs) [] := by
      intro rs
      rw [List.foldl_map]
      rfl
    unfold calculateAggregateRankings
    rw [hdep results, hdep results', hmap]
  · exact calcAgg_example_eval

/-- C2 witness: the aggregate-ranking theorem applied to the
specification's two-ranker example, at model `m1`. -/
theorem C2_calculate_aggregate_rankings_witness :
    ∃ e ∈ calculateAggregateRankings
        [⟨"ranker1", "FINAL RANKING:\n1. Response B\n2. Response A", []⟩,
         ⟨"ranker2", "FINAL RANKING:\n1. Response A\n2. Response B", []⟩]
        [("Response A", "m1"), ("Response B", "m2")], e.model = "m1" :=
  ((C2_calculate_aggregate_rankings
      [⟨"ranker1", "FINAL RANKING:\n1. Response B\n2. Response A", []⟩,
       ⟨"ranker2", "FINAL RANKING:\n1. Response A\n2. Response B", []⟩]
      [("Response A", "m1"), ("Response B", "m2")]).2.1 "m1").mpr (by decide)

/-- C10: `parseRankingFromText` does not deduplicate labels — a token
matched twice along the selected extraction path appears twice in the
output, and `calculateAggregateRankings` then records one 1-indexed
position per occurrence, so a single ranking text contributes two
positions (here `[1, 2]`, average `1.5`, count `2`) for the same model. -/
theorem C10_no_dedup_multiplicity :
    parseRankingFromText
        "FINAL RANKING:\n1. Response A\n2. Response A\n3. Response B" =
      ["Response A", "Response A", "Response B"] ∧
    specPositions
        [⟨"ranker1",
          "FINAL RANKING:\n1. Response A\n2. Response A\n3. Response B", []⟩]
        [("Response A", "m1"), ("Response B", "m2")] "m1" = [1, 2] ∧
    calculateAggregateRankings
        [⟨"ranker1",
          "FINAL RANKING:\n1. Response A\n2. Response A\n3. Response B", []⟩]
        [("Response A", "m1"), ("Response B", "m2")] =
      [⟨"m1", 3 / 2, 2⟩, ⟨"m2", 3, 1⟩] := by
  refine ⟨by decide, by decide, ?_⟩
  have h1 : recordPositions
      [⟨"ranker1",
        "FINAL RANKING:\n1. Response A\n2. Response A\n3. Response B", []⟩]
      [("Response A", "m1"), ("Response B", "m2")] =
      [("m1", [1, 2]), ("m2", [3])] := by decide
  unfold calculateAggregateRankings
  rw [h1]
  have h2 : aggregateEntries [("m1", [1, 2]), ("m2", [3])] =
      [⟨"m1", 3 / 2, 2⟩, ⟨"m2", 3, 1⟩] := by
    simp only [aggregateEntries, List.filterMap_cons, List.filterMap_nil]
    norm_num [round2_three_halves, round2_three]
  rw [h2]
  have hle : (3 : ℚ) / 2 ≤ 3 := by norm_num
  simp [List.insertionSort, List.orderedInsert, hle]

/-! ### Stage 2 label assignment (`stage2CollectRankings`, lines 338-355) -/

/-- A settled gateway response: the extracted message content (the
optional reasoning trace is not consumed by the orchestration logic). -/
structure QueryResponse where
  content : String
  deriving DecidableEq, Repr

/-- `stage1CollectResponses` (lines 252-280) after the parallel network
step (given as the settled `model → response | null` entries, in
insertion order): keep only the successful responses. -/
def stage1CollectResponses (net : List (String × Option QueryResponse)) :
    List Stage1Result :=
  net.filterMap fun mr => mr.2.map fun r => (⟨mr.1, r.content⟩ : Stage1Result)

/-- The anonymized labels: `String.fromCharCode(65 + i)` for each index
of the Stage 1 result list. -/
def labelsFor (n : Nat) : List String :=
  (List.range n).map fun i => String.mk [Char.ofNat (65 + i)]

/-- The key `Response ${label}` for the label at index `i`. -/
def labelKey (i : Nat) : String := "Response " ++ String.mk [Char.ofNat (65 + i)]

/-- The `labelToModel` map built at Stage 2 entry:
`labelToModel[`Response ${labels[i]}`] = stage1Results[i].model`. -/
def buildLabelToModel (stage1Results : List Stage1Result) :
    List (String × String) :=
  (stage1Results.enum).foldl (fun o ir => objSet o (labelKey ir.1) ir.2.model) []

/-- `stage2CollectRankings` (lines 330-412) after the parallel network
step: each successful ranking response is parsed into a `Stage2Result`,
and the label-to-model map is returned alongside.  (The ranking-prompt
text only feeds the network call, which is the oracled `net` input.) -/
def stage2CollectRankings (stage1Results : List Stage1Result)
    (net : List (String × Option QueryResponse)) :
    List Stage2Result × List (String × String) :=
  (net.filterMap fun mr => mr.2.map fun r =>
      (⟨mr.1, r.content, parseRankingFromText r.content⟩ : Stage2Result),
    buildLabelToModel stage1Results)

theorem labelsFor_eq_take (n : Nat) (h : n ≤ 26) :
    labelsFor n = (labelsFor 26).take n := by
  unfold labelsFor
  rw [← List.map_take, List.take_range, Nat.min_eq_left h]

theorem labelsFor_upper (n : Nat) (h : n ≤ 26) :
    ∀ lab ∈ labelsFor n, ∃ c, 'A' ≤ c ∧ c ≤ 'Z' ∧ lab = String.mk [c] := by
  intro lab hlab
  simp only [labelsFor] at hlab
  obtain ⟨i, hi, rfl⟩ := List.mem_map.mp hlab
  have hi26 : i < 26 := lt_of_lt_of_le (List.mem_range.mp hi) h
  have hAZ : 'A' ≤ Char.ofNat (65 + i) ∧ Char.ofNat (65 + i) ≤ 'Z' := by
    interval_cases i <;> exact (by decide)
  exact ⟨Char.ofNat (65 + i), hAZ.1, hAZ.2, rfl⟩

theorem labelsFor_nodup (n : Nat) (h : n ≤ 26) : (labelsFor n).Nodup := by
  rw [labelsFor_eq_take n h]
  exact List.Nodup.sublist (List.take_sublist _ _) (by decide)

theorem labelKeys_nodup (n : Nat) (h : n ≤ 26) :
    ((List.range n).map labelKey).Nodup := by
  have h1 : List.range n = (List.range 26).take n := by
    rw [List.take_range, Nat.min_eq_left h]
  rw [h1, List.map_take]
  exact List.Nodup.sublist (List.take_sublist _ _) (by decide)

theorem objSet_eq_append {α : Type} (o : List (String × α)) (k : String)
    (v : α) (h : k ∉ o.map Prod.fst) : objSet o k v = o ++ [(k, v)] := by
  induction o with
  | nil => rfl
  | cons kv rest ih =>
    obtain ⟨k0, v0⟩ := kv
    have hk : ¬ k0 = k := by
      intro hh
      exact h (by simp [hh])
    simp only [objSet, if_neg hk, List.cons_append]
    rw [ih fun hm => h (by simp [hm])]

theorem foldl_objSet_eq {α : Type} :
    ∀ (ps o : List (String × α)),
      (∀ k ∈ ps.map Prod.fst, k ∉ o.map Prod.fst) →
      (ps.map Prod.fst).Nodup →
      ps.foldl (fun acc kv => objSet acc kv.1 kv.2) o = o ++ ps := by
  intro ps
  induction ps with
  | nil =>
    intro o _ _
    simp
  | cons kv rest ih =>
    intro o hdisj hnd
    obtain ⟨k, v⟩ := kv
    rw [List.map_cons] at hnd
    have hnd2 := List.nodup_cons.mp hnd
    have hk : k ∉ o.map Prod.fst := hdisj k (by simp)
    rw [List.foldl_cons]
    rw [show objSet o k v = o ++ [(k, v)] from objSet_eq_append o k v hk]
    rw [ih (o ++ [(k, v)]) ?_ hnd2.2]
    · simp
    · intro k2 hk2 hmem
      rw [List.map_append] at hmem
      rcases List.mem_append.mp hmem with hmo | hmk
      · exact hdisj k2 (by simp [hk2]) hmo
      · simp at hmk
        subst hmk
        exact hnd2.1 hk2

theorem buildLabelToModel_eq (results : List Stage1Result)
    (h26 : results.length ≤ 26) :
    buildLabelToModel results =
      (results.enum).map fun ir => (labelKey ir.1, ir.2.model) := by
  have hfold : buildLabelToModel results =
      ((results.enum).map fun ir => (labelKey ir.1, ir.2.model)).foldl
        (fun acc kv => objSet acc kv.1 kv.2) [] := by
    unfold buildLabelToModel
    rw [List.foldl_map]
  have hkeys : (((results.enum).map fun ir => (labelKey ir.1, ir.2.model)).map
      Prod.fst) = (List.range results.length).map labelKey := by
    rw [List.map_map]
    rw [show (Prod.fst ∘ fun ir : Nat × Stage1Result =>
          (labelKey ir.1, ir.2.model)) = labelKey ∘ Prod.fst from rfl]
    rw [← List.map_map, List.enum_map_fst]
  rw [hfold, foldl_objSet_eq _ [] (by simp) (by rw [hkeys]; exact labelKeys_nodup _ h26)]
  simp

/-- C3 (amended): for every non-empty list of at most 26 Stage1Results,
the label at index `i` is the single uppercase letter at alphabet
position `i`, labels are unique within the round, `labelToModel` maps
`Response ` + label to the model at the same index, and when the models
are pairwise distinct every model appears as a value exactly once. -/
theorem C3_label_assignment_amended (results : List Stage1Result)
    (_hne : results ≠ []) (h26 : results.length ≤ 26) :
    (labelsFor results.length).length = results.length ∧
    (∀ i, i < results.length →
      (labelsFor results.length).getD i "" = String.mk [Char.ofNat (65 + i)]) ∧
    (∀ lab ∈ labelsFor results.length,
      ∃ c, 'A' ≤ c ∧ c ≤ 'Z' ∧ lab = String.mk [c]) ∧
    (labelsFor results.length).Nodup ∧
    buildLabelToModel results =
      (results.enum).map (fun ir => (labelKey ir.1, ir.2.model)) ∧
    ((results.map fun r => r.model).Nodup →
      ((buildLabelToModel results).map fun kv => kv.2) =
        results.map (fun r => r.model) ∧
      ∀ m ∈ results.map (fun r => r.model),
        ((buildLabelToModel results).map fun kv => kv.2).count m = 1) := by
  have hv : ((buildLabelToModel results).map fun kv => kv.2) =
      results.map fun r => r.model := by
    rw [buildLabelToModel_eq results h26, List.map_map]
    rw [show ((fun kv : String × String => kv.2) ∘ fun ir : Nat × Stage1Result =>
          (labelKey ir.1, ir.2.model)) =
        ((fun r : Stage1Result => r.model) ∘ Prod.snd) from rfl]
    rw [← List.map_map, List.enum_map_snd]
  refine ⟨by simp [labelsFor], ?_, labelsFor_upper _ h26, labelsFor_nodup _ h26,
    buildLabelToModel_eq results h26, ?_⟩
  · intro i hi
    simp [labelsFor, List.getD, hi]
  · intro hnd
    refine ⟨hv, ?_⟩
    intro m hm
    rw [hv]
    exact List.count_eq_one_of_mem hnd hm

/-- C3 counterexample: with 27 Stage1Results the label at index 26 is
the character after `Z` — `[` — not an uppercase letter, so the claim
fails for lists longer than 26. -/
theorem C3_label_assignment_counterexample :
    (labelsFor (List.replicate 27 (⟨"m", "r"⟩ : Stage1Result)).length).getD 26 ""
      = "[" ∧
    ¬ ∃ c, 'A' ≤ c ∧ c ≤ 'Z' ∧
      (labelsFor (List.replicate 27 (⟨"m", "r"⟩ : Stage1Result)).length).getD 26 ""
        = String.mk [c] := by
  constructor
  · decide
  · rintro ⟨c, h1, h2, h3⟩
    rw [show (labelsFor
          (List.replicate 27 (⟨"m", "r"⟩ : Stage1Result)).length).getD 26 "" =
        "[" from by decide] at h3
    have hd : (['['] : List Char) = [c] := congrArg String.data h3
    have hc : c = '[' := (List.cons.injEq _ _ _ _ ▸ hd).1.symm
    subst hc
    exact absurd h2 (by decide)

/-- C3 witness: the label assignment applied to a concrete two-model
round. -/
theorem C3_label_assignment_witness :
    buildLabelToModel [⟨"m1", "a"⟩, ⟨"m2", "b"⟩] =
      [("Response A", "m1"), ("Response B", "m2")] := by
  have h := (C3_label_assignment_amended [⟨"m1", "a"⟩, ⟨"m2", "b"⟩]
    (by decide) (by decide)).2.2.2.2.1
  rw [h]
  decide

/-- C9 (amended): in every round the number of labels equals the number
of Stage1Results; when that number is at most 26, every assigned label
is a single uppercase letter A through Z. -/
theorem C9_label_count_amended (results : List Stage1Result) :
    (labelsFor results.length).length = results.length ∧
    (results.length ≤ 26 →
      ∀ lab ∈ labelsFor results.length,
        ∃ c, 'A' ≤ c ∧ c ≤ 'Z' ∧ lab = String.mk [c]) :=
  ⟨by simp [labelsFor], fun h => labelsFor_upper _ h⟩

/-- C9 counterexample: a round with 28 Stage1Results assigns 28 labels,
violating the claimed bound of 26. -/
theorem C9_label_count_counterexample :
    (labelsFor (List.replicate 28 (⟨"m", "r"⟩ : Stage1Result)).length).length
      = 28 ∧
    ¬ ((labelsFor
        (List.replicate 28 (⟨"m", "r"⟩ : Stage1Result)).length).length ≤ 26) :=
  ⟨by decide, by decide⟩

/-- C9 witness: the single label of a one-model round is the uppercase
letter `A`. -/
theorem C9_label_count_witness :
    ∃ c, 'A' ≤ c ∧ c ≤ 'Z' ∧ "A" = String.mk [c] :=
  (C9_label_count_amended [⟨"m", "r"⟩]).2 (by decide) "A" (by decide)

/-! ### Gateway client (`openrouter.service.ts`, both variants) -/

/-- `!key.trim()`: is the string empty or whitespace-only? -/
def isBlank (s : String) : Bool := s.toList.all fun c => isJsSpace c

/-- JavaScript `a || b` on optional strings (empty string is falsy). -/
def jsOrString (a b : Option String) : Option String :=
  match a with
  | some s => if s = "" then b else some s
  | none => b

/-- The two configuration-error messages of `queryModel`. -/
def keyRequiredMsg : String :=
  "OpenRouter API key is required. Provide it in the request or set OPENROUTER_API_KEY environment variable."

/-- The message thrown for a whitespace-only key. -/
def keyEmptyMsg : String := "OpenRouter API key cannot be empty."

/-- `queryModel` of the first `OpenRouterService` variant: the key is
the call argument or, when that is falsy, the environment variable;
when the key is missing/empty/blank the call throws before any network
activity; otherwise the try-block settles to the oracled network
outcome `net` (`none` models HTTP failure, malformed shape or timeout,
all caught and returned as null). -/
def queryModel (apiKey env : Option String) (net : Option QueryResponse) :
    Except String (Option QueryResponse) :=
  match jsOrString apiKey env with
  | none => .error keyRequiredMsg
  | some k =>
    if k = "" then .error keyRequiredMsg
    else if isBlank k then .error keyEmptyMsg
    else .ok net

/-- `queryModel` of the second `OpenRouterService` variant: identical
except that the environment is never consulted — only the call argument
is checked. -/
def queryModelNoFallback (apiKey : Option String)
    (net : Option QueryResponse) : Except String (Option QueryResponse) :=
  match apiKey with
  | none => .error keyRequiredMsg
  | some k =>
    if k = "" then .error keyRequiredMsg
    else if isBlank k then .error keyEmptyMsg
    else .ok net

theorem queryModel_ok (apiKey env : Option String)
    (net : Option QueryResponse) (s : String)
    (hs : jsOrString apiKey env = some s) (hb : isBlank s = false) :
    queryModel apiKey env net = .ok net := by
  have hs0 : ¬ s = "" := by
    intro h
    subst h
    simp [isBlank] at hb
  unfold queryModel
  rw [hs]
  show (if s = "" then Except.error keyRequiredMsg
      else if isBlank s = true then Except.error keyEmptyMsg
      else Except.ok net) = Except.ok net
  rw [if_neg hs0, if_neg (by simp [hb])]

/-- `Promise.all`: the settled values in order, or the first rejection. -/
def promiseAll {α : Type} : List (Except String α) → Except String (List α)
  | [] => .ok []
  | x :: xs =>
    match x with
    | .error e => .error e
    | .ok a =>
      match promiseAll xs with
      | .error e => .error e
      | .ok as => .ok (a :: as)

/-- `queryModelsParallel`: dispatch `queryModel` per model (the `net`
oracle gives each dispatched call's settled network outcome by index),
await all of them, then build the `model → response | null` record in
input order. -/
def queryModelsParallel (apiKey env : Option String) (models : List String)
    (net : Nat → Option QueryResponse) :
    Except String (List (String × Option QueryResponse)) :=
  match promiseAll
      ((List.range models.length).map fun i => queryModel apiKey env (net i)) with
  | .error e => .error e
  | .ok responses =>
    .ok ((models.zip responses).foldl (fun o mr => objSet o mr.1 mr.2) [])

theorem promiseAll_ok {α β : Type} (f : α → β) :
    ∀ l : List α,
      promiseAll (l.map fun a => (Except.ok (f a) : Except String β)) =
        .ok (l.map f) := by
  intro l
  induction l with
  | nil => rfl
  | cons a as ih =>
    simp only [List.map_cons, promiseAll, ih]

/-- C6: with a usable credential, `queryModelsParallel` settles every
per-model call and returns one entry per input model, in input order,
holding that call's response-or-null; it does not fail even when every
individual call fails — with all calls null it returns the all-null
mapping rather than raising. -/
theorem C6_query_models_parallel (apiKey env : Option String)
    (models : List String) (net : Nat → Option QueryResponse)
    (hcred : ∃ s, jsOrString apiKey env = some s ∧ isBlank s = false)
    (hnd : models.Nodup) :
    queryModelsParallel apiKey env models net =
      .ok ((models.enum).map fun im => (im.2, net im.1)) ∧
    ((∀ i, net i = none) →
      queryModelsParallel apiKey env models net =
        .ok ((models.enum).map fun im =>
          (im.2, (none : Option QueryResponse)))) := by
  obtain ⟨s, hs, hb⟩ := hcred
  have hqm : ∀ n : Option QueryResponse, queryModel apiKey env n = .ok n :=
    fun n => queryModel_ok apiKey env n s hs hb
  have hpairs : models.zip ((List.range models.length).map net) =
      (models.enum).map fun im => (im.2, net im.1) := by
    rw [List.zip_map_right]
    rw [show models.zip (List.range models.length) =
        (models.enum).map Prod.swap by
      rw [List.enum_eq_zip_range, List.zip_swap]]
    rw [List.map_map]
    rfl
  have hkeys : (((models.enum).map fun im => (im.2, net im.1)).map Prod.fst)
      = models := by
    rw [List.map_map]
    rw [show (Prod.fst ∘ fun im : Nat × String => (im.2, net im.1)) =
        Prod.snd from rfl]
    exact List.enum_map_snd models
  have hmain : queryModelsParallel apiKey env models net =
      .ok ((models.enum).map fun im => (im.2, net im.1)) := by
    unfold queryModelsParallel
    rw [show ((List.range models.length).map fun i =>
          queryModel apiKey env (net i)) =
        (List.range models.length).map fun i => Except.ok (net i) from
      List.map_congr_left fun i _ => hqm (net i)]
    rw [promiseAll_ok net (List.range models.length)]
    show Except.ok ((models.zip ((List.range models.length).map net)).foldl
        (fun o mr => objSet o mr.1 mr.2) []) = _
    rw [hpairs]
    rw [foldl_objSet_eq _ [] (by simp) (by rw [hkeys]; exact hnd)]
    rfl
  refine ⟨hmain, fun hall => ?_⟩
  rw [hmain]
  congr 1
  exact List.map_congr_left fun im _ => by rw [hall im.1]

/-- C6 witness: two models with a usable key and every call failed. -/
theorem C6_query_models_parallel_witness :
    queryModelsParallel (some "sk-test") none ["m1", "m2"] (fun _ => none) =
      .ok [("m1", none), ("m2", none)] := by
  have h := (C6_query_models_parallel (some "sk-test") none ["m1", "m2"]
    (fun _ => none) ⟨"sk-test", by decide, by decide⟩ (by decide)).1
  rw [h]
  rfl

theorem queryModel_none (apiKey env : Option String)
    (net : Option QueryResponse) (h : jsOrString apiKey env = none) :
    queryModel apiKey env net = .error keyRequiredMsg := by
  unfold queryModel
  rw [h]

theorem queryModel_some (apiKey env : Option String)
    (net : Option QueryResponse) (k : String)
    (h : jsOrString apiKey env = some k) :
    queryModel apiKey env net =
      if k = "" then .error keyRequiredMsg
      else if isBlank k then .error keyEmptyMsg
      else .ok net := by
  unfold queryModel
  rw [h]

theorem jsOrString_some (a : String) (b : Option String) :
    jsOrString (some a) b = if a = "" then b else some a := rfl

theorem queryModel_error_indep (apiKey env : Option String)
    (net net' : Option QueryResponse)
    (h : ∃ msg, queryModel apiKey env net = .error msg) :
    queryModel apiKey env net = queryModel apiKey env net' := by
  cases hj : jsOrString apiKey env with
  | none =>
    rw [queryModel_none apiKey env net hj, queryModel_none apiKey env net' hj]
  | some k =>
    rw [queryModel_some apiKey env net k hj,
      queryModel_some apiKey env net' k hj]
    by_cases hk0 : k = ""
    · rw [if_pos hk0, if_pos hk0]
    · by_cases hkb : isBlank k = true
      · rw [if_neg hk0, if_neg hk0, if_pos hkb, if_pos hkb]
      · have hok := queryModel_ok apiKey env net k hj (by simpa using hkb)
        obtain ⟨msg, hmsg⟩ := h
        rw [hok] at hmsg
        cases hmsg

theorem queryModel_error_iff (apiKey env : Option String)
    (net : Option QueryResponse) :
    (∃ msg, queryModel apiKey env net = .error msg) ↔
      ¬ ∃ s, jsOrString apiKey env = some s ∧ isBlank s = false := by
  cases hj : jsOrString apiKey env with
  | none =>
    constructor
    · rintro _ ⟨s, hs, _⟩
      cases hs
    · intro _
      exact ⟨keyRequiredMsg, queryModel_none apiKey env net hj⟩
  | some k =>
    by_cases hk0 : k = ""
    · subst hk0
      constructor
      · rintro _ ⟨s, hs, hb⟩
        have hsk := Option.some.inj hs
        subst hsk
        simp [isBlank] at hb
      · intro _
        exact ⟨keyRequiredMsg, by
          rw [queryModel_some apiKey env net "" hj, if_pos rfl]⟩
    · by_cases hkb : isBlank k = true
      · constructor
        · rintro _ ⟨s, hs, hb⟩
          have hsk := Option.some.inj hs
          subst hsk
          rw [hkb] at hb
          cases hb
        · intro _
          exact ⟨keyEmptyMsg, by
            rw [queryModel_some apiKey env net k hj, if_neg hk0, if_pos hkb]⟩
      · have hok := queryModel_ok apiKey env net k hj (by simpa using hkb)
        constructor
        · rintro ⟨msg, hmsg⟩
          rw [hok] at hmsg
          cases hmsg
        · intro hno
          exact absurd ⟨k, rfl, by simpa using hkb⟩ hno

theorem queryModelNoFallback_eq (apiKey : Option String)
    (net : Option QueryResponse) :
    queryModelNoFallback apiKey net = queryModel apiKey none net := by
  cases apiKey with
  | none => rfl
  | some s =>
    by_cases h : s = ""
    · subst h
      rfl
    · have h1 : jsOrString (some s) none = some s := by
        rw [jsOrString_some, if_neg h]
      rw [queryModel_some (some s) none net s h1]
      rfl

theorem jsOrString_none_usable (apiKey : Option String) :
    (∃ s, jsOrString apiKey none = some s ∧ isBlank s = false) ↔
      ∃ s, apiKey = some s ∧ isBlank s = false := by
  cases apiKey with
  | none => rfl
  | some a =>
    by_cases h : a = ""
    · subst h
      rw [jsOrString_some, if_pos rfl]
      constructor
      · rintro ⟨s, hs, _⟩
        cases hs
      · rintro ⟨s, hs, hb⟩
        have hsk := Option.some.inj hs
        subst hsk
        simp [isBlank] at hb
    · rw [jsOrString_some, if_neg h]

/-- C7 (amended): `queryModel` raises a configuration error — making no
gateway call (its result is then independent of the network oracle) —
exactly when the selected key is unusable: in the first variant the
selected key is the call argument when truthy, else the environment
variable; in the second variant the environment is never consulted and
only the call argument counts.  `Unusable` means missing, empty, or
whitespace-only.  With a usable selected key, network-level failure
(HTTP error, malformed shape, timeout) yields null, not an exception. -/
theorem C7_query_model_credential_amended :
    (∀ (apiKey env : Option String) (net : Option QueryResponse),
      (∃ msg, queryModel apiKey env net = .error msg) ↔
        ¬ ∃ s, jsOrString apiKey env = some s ∧ isBlank s = false) ∧
    (∀ (apiKey env : Option String) (net : Option QueryResponse) (s : String),
      jsOrString apiKey env = some s → isBlank s = false →
      queryModel apiKey env net = .ok net) ∧
    (∀ (apiKey env : Option String) (net net' : Option QueryResponse),
      (∃ msg, queryModel apiKey env net = .error msg) →
      queryModel apiKey env net = queryModel apiKey env net') ∧
    (∀ (apiKey : Option String) (net : Option QueryResponse),
      (∃ msg, queryModelNoFallback apiKey net = .error msg) ↔
        ¬ ∃ s, apiKey = some s ∧ isBlank s = false) ∧
    (∀ (apiKey : Option String) (net : Option QueryResponse) (s : String),
      apiKey = some s → isBlank s = false →
      queryModelNoFallback apiKey net = .ok net) := by
  refine ⟨queryModel_error_iff, fun a e n s hs hb => queryModel_ok a e n s hs hb,
    queryModel_error_indep, ?_, ?_⟩
  · intro apiKey net
    rw [queryModelNoFallback_eq, queryModel_error_iff,
      jsOrString_none_usable apiKey]
  · intro apiKey net s hs hb
    rw [queryModelNoFallback_eq]
    refine queryModel_ok apiKey none net s ?_ hb
    rw [hs, jsOrString_some, if_neg ?_]
    intro h0
    subst h0
    simp [isBlank] at hb

/-- C7 counterexample: a whitespace-only call argument together with a
non-empty environment credential still raises (first variant), and the
second variant raises whenever the call argument is absent no matter
what the environment holds — so "raises exactly when no non-empty
credential is available from either source" is false. -/
theorem C7_query_model_credential_counterexample :
    (∃ s, ((some " " : Option String) = some s ∨
        (some "sk-or-123" : Option String) = some s) ∧ s ≠ "") ∧
    queryModel (some " ") (some "sk-or-123") (some ⟨"hello"⟩) =
      .error keyEmptyMsg ∧
    queryModelNoFallback none (some ⟨"hello"⟩) = .error keyRequiredMsg := by
  exact ⟨⟨"sk-or-123", Or.inr rfl, by decide⟩, rfl, rfl⟩

/-- C7 witness: a usable key settles to the network outcome; a missing
key raises. -/
theorem C7_query_model_credential_witness :
    queryModel (some "sk-test") none (some ⟨"hi"⟩) = .ok (some ⟨"hi"⟩) ∧
    (∃ msg, queryModel none none (some ⟨"hi"⟩) = .error msg) :=
  ⟨(C7_query_model_credential_amended).2.1 (some "sk-test") none
      (some ⟨"hi"⟩) "sk-test" (by decide) (by decide),
    ((C7_query_model_credential_amended).1 none none (some ⟨"hi"⟩)).mpr
      (by rintro ⟨s, hs, _⟩; cases hs)⟩

/-! ### Stage 3, title stage and the orchestrator -/

/-- Modelled from the spec: the configured default chairman model
(`CHAIRMAN_MODEL` of `common/config.ts`, a file not present in the
sources); the orchestration logic only passes the identifier through,
so its value is opaque. -/
def CHAIRMAN_MODEL : String := "default/chairman-model"

/-- `chairmanModel || CHAIRMAN_MODEL`. -/
def resolveChairman (chairmanModel : Option String) : String :=
  match chairmanModel with
  | some s => if s = "" then CHAIRMAN_MODEL else s
  | none => CHAIRMAN_MODEL

/-- The literal fallback string of a failed chairman synthesis. -/
def synthesisFallbackMsg : String := "Error: Unable to generate final synthesis."

/-- `stage3SynthesizeFinal` (lines 472-532) after the single chairman
call (the synthesis prompt built from the Stage 1/2 results feeds only
that oracled call): a null response produces the literal fallback
string, a successful one the returned content, the model field in both
cases the attempted chairman. -/
def stage3SynthesizeFinal (chairmanModel : Option String)
    (net : Option QueryResponse) : Stage3Result :=
  match net with
  | none => ⟨resolveChairman chairmanModel, synthesisFallbackMsg⟩
  | some r => ⟨resolveChairman chairmanModel, r.content⟩

/-- JavaScript `String.prototype.trim`. -/
def jsTrim (s : String) : String :=
  String.mk (((s.toList.dropWhile isJsSpace).reverse.dropWhile isJsSpace).reverse)

/-- One leading `"` or `'` removed, as the regex `^["']` does. -/
def removeLeadingQuote (l : List Char) : List Char :=
  match l with
  | c :: rest => if c = '"' ∨ c = '\'' then rest else c :: rest
  | [] => []

/-- One trailing `"` or `'` removed, as the regex `["']$` does. -/
def removeTrailingQuote (l : List Char) : List Char :=
  match l.reverse with
  | c :: rest => if c = '"' ∨ c = '\'' then rest.reverse else l
  | [] => l

/-- The title clean-up of `generateConversationTitle`: trim, strip the
quote ends, truncate to 47 characters plus `...` when longer than 50. -/
def cleanTitle (s : String) : String :=
  let t := jsTrim s
  let t2 := String.mk (removeTrailingQuote (removeLeadingQuote t.toList))
  if 50 < t2.length then String.mk (t2.toList.take 47) ++ "..." else t2

/-- `generateConversationTitle` (lines 541-578) after the single title
call: null falls back to the literal default title. -/
def generateConversationTitle (net : Option QueryResponse) : String :=
  match net with
  | none => "New Conversation"
  | some r =>
    cleanTitle (if r.content = "" then "New Conversation" else r.content)

/-- A progress event of the SSE stream (type discriminator and payload;
the human-readable message and timestamp fields are omitted). -/
inductive Event where
  | stream_start
  | stage1_start
  | stage1_complete (data : List Stage1Result)
  | stage2_start
  | stage2_complete (data : List Stage2Result)
      (label_to_model : List (String × String))
      (aggregate_rankings : List AggregateRanking)
  | stage3_start
  | stage3_complete (data : Stage3Result)
  | title_complete (title : String)
  | complete
  | error (message : String)
  deriving DecidableEq, Repr

/-- The message of the one hard-fail condition. -/
def noResponsesMsg : String :=
  "Stage 1 failed: No responses received from any model. Check API key and model availability."

/-- The settled outcomes of the four kinds of external calls a run
makes: the two parallel query batches (as the record entries their
`queryModelsParallel` call produced, or the error it rejected with),
the chairman call and the title call. -/
structure CouncilNet where
  stage1 : Except String (List (String × Option QueryResponse))
  stage2 : Except String (List (String × Option QueryResponse))
  stage3 : Except String (Option QueryResponse)
  title : Except String (Option QueryResponse)

/-- `processCouncilWithStreaming` (lines 85-220): the events it writes
after `stream_start`, paired with the error it rethrows, if any.  An
await that throws is caught by the catch block at line 211, which emits
an `error` event and rethrows; an empty Stage 1 result list throws the
`noResponsesMsg` error at line 115, caught the same way; a title
failure is swallowed (lines 198-201). -/
def processCouncilWithStreaming (net : CouncilNet)
    (chairmanModel : Option String) (generateTitle : Bool) :
    List Event × Option String :=
  match net.stage1 with
  | .error e => ([.stage1_start, .error e], some e)
  | .ok n1 =>
    let stage1Results := stage1CollectResponses n1
    if stage1Results.isEmpty then
      ([.stage1_start, .error noResponsesMsg], some noResponsesMsg)
    else
      match net.stage2 with
      | .error e =>
        ([.stage1_start, .stage1_complete stage1Results, .stage2_start,
          .error e], some e)
      | .ok n2 =>
        let p := stage2CollectRankings stage1Results n2
        let aggregateRankings := calculateAggregateRankings p.1 p.2
        match net.stage3 with
        | .error e =>
          ([.stage1_start, .stage1_complete stage1Results, .stage2_start,
            .stage2_complete p.1 p.2 aggregateRankings, .stage3_start,
            .error e], some e)
        | .ok r3 =>
          let stage3Result := stage3SynthesizeFinal chairmanModel r3
          let titleEvents :=
            if generateTitle then
              match net.title with
              | .error _ => []
              | .ok rt => [Event.title_complete (generateConversationTitle rt)]
            else []
          ([.stage1_start, .stage1_complete stage1Results, .stage2_start,
            .stage2_complete p.1 p.2 aggregateRankings, .stage3_start,
            .stage3_complete stage3Result] ++ titleEvents ++ [.complete],
            none)

/-- `processCouncil` (lines 26-63): `stream_start`, the streamed events,
and — when the inner handler rethrew — the outer catch's own `error`
event before the stream is closed. -/
def processCouncil (net : CouncilNet) (chairmanModel : Option String)
    (generateTitle : Bool) : List Event :=
  let r := processCouncilWithStreaming net chairmanModel generateTitle
  Event.stream_start ::
    (r.1 ++ (match r.2 with | some e => [Event.error e] | none => []))

theorem processCouncil_ok_events (net : CouncilNet)
    (chairmanModel : Option String) (generateTitle : Bool)
    (n1 n2 : List (String × Option QueryResponse))
    (r3 : Option QueryResponse)
    (h1 : net.stage1 = .ok n1)
    (hne : stage1CollectResponses n1 ≠ [])
    (h2 : net.stage2 = .ok n2)
    (h3 : net.stage3 = .ok r3) :
    processCouncil net chairmanModel generateTitle =
      [Event.stream_start, Event.stage1_start,
        Event.stage1_complete (stage1CollectResponses n1),
        Event.stage2_start,
        Event.stage2_complete
          (stage2CollectRankings (stage1CollectResponses n1) n2).1
          (stage2CollectRankings (stage1CollectResponses n1) n2).2
          (calculateAggregateRankings
            (stage2CollectRankings (stage1CollectResponses n1) n2).1
            (stage2CollectRankings (stage1CollectResponses n1) n2).2),
        Event.stage3_start,
        Event.stage3_complete (stage3SynthesizeFinal chairmanModel r3)] ++
      (if generateTitle then
        match net.title with
        | .error _ => []
        | .ok rt => [Event.title_complete (generateConversationTitle rt)]
       else []) ++ [Event.complete] := by
  have hcond : ¬ ((stage1CollectResponses n1).isEmpty = true) := by
    simpa [List.isEmpty_iff] using hne
  simp only [processCouncil, processCouncilWithStreaming, h1, h2, h3]
  rw [if_neg hcond]
  simp

/-- C4: in a run where Stage 1 yields at least one result and no fatal
error is thrown, the orchestrator emits `stream_start`, `stage1_start`,
`stage1_complete` with the Stage1Result list, `stage2_start`,
`stage2_complete` with the Stage2Result list and metadata holding both
the label-to-model map and the aggregate rankings, `stage3_start`,
`stage3_complete` with the Stage3Result, then `title_complete` only
when title generation was requested (and its call succeeded), and
`complete` last; on a fatal error the stream ends with an `error` event
carrying the message. -/
theorem C4_event_order (net : CouncilNet) (chairmanModel : Option String)
    (generateTitle : Bool) (n1 n2 : List (String × Option QueryResponse))
    (r3 : Option QueryResponse)
    (h1 : net.stage1 = .ok n1)
    (hne : stage1CollectResponses n1 ≠ [])
    (h2 : net.stage2 = .ok n2)
    (h3 : net.stage3 = .ok r3) :
    (processCouncil net chairmanModel generateTitle =
      [Event.stream_start, Event.stage1_start,
        Event.stage1_complete (stage1CollectResponses n1),
        Event.stage2_start,
        Event.stage2_complete
          (stage2CollectRankings (stage1CollectResponses n1) n2).1
          (stage2CollectRankings (stage1CollectResponses n1) n2).2
          (calculateAggregateRankings
            (stage2CollectRankings (stage1CollectResponses n1) n2).1
            (stage2CollectRankings (stage1CollectResponses n1) n2).2),
        Event.stage3_start,
        Event.stage3_complete (stage3SynthesizeFinal chairmanModel r3)] ++
      (if generateTitle then
        match net.title with
        | .error _ => []
        | .ok rt => [Event.title_complete (generateConversationTitle rt)]
       else []) ++ [Event.complete]) ∧
    (∀ t, Event.title_complete t ∈ processCouncil net chairmanModel generateTitle →
      generateTitle = true) ∧
    (∀ (net' : CouncilNet) (cm' : Option String) (gt' : Bool) (e : String),
      (processCouncilWithStreaming net' cm' gt').2 = some e →
      ∃ pre, processCouncil net' cm' gt' = pre ++ [Event.error e]) := by
  have hmain := processCouncil_ok_events net chairmanModel generateTitle
    n1 n2 r3 h1 hne h2 h3
  refine ⟨hmain, ?_, ?_⟩
  · intro t ht
    by_cases hgt : generateTitle = true
    · exact hgt
    · have hgf : generateTitle = false := by simpa using hgt
      rw [hmain, hgf] at ht
      simp at ht
  · intro net' cm' gt' e he
    refine ⟨Event.stream_start :: (processCouncilWithStreaming net' cm' gt').1, ?_⟩
    show Event.stream_start ::
        ((processCouncilWithStreaming net' cm' gt').1 ++
          (match (processCouncilWithStreaming net' cm' gt').2 with
            | some e2 => [Event.error e2]
            | none => [])) =
      Event.stream_start :: (processCouncilWithStreaming net' cm' gt').1 ++
        [Event.error e]
    rw [he]
    rfl

/-- C4 witness: a one-model happy-path run without title generation. -/
theorem C4_event_order_witness :
    processCouncil
      ⟨.ok [("m1", some ⟨"a"⟩)],
        .ok [("m1", some ⟨"FINAL RANKING:\n1. Response A"⟩)],
        .ok (some ⟨"final"⟩), .ok (some ⟨"t"⟩)⟩
      (some "chair") false =
    [Event.stream_start, Event.stage1_start,
      Event.stage1_complete [⟨"m1", "a"⟩],
      Event.stage2_start,
      Event.stage2_complete
        [⟨"m1", "FINAL RANKING:\n1. Response A", ["Response A"]⟩]
        [("Response A", "m1")]
        (calculateAggregateRankings
          [⟨"m1", "FINAL RANKING:\n1. Response A", ["Response A"]⟩]
          [("Response A", "m1")]),
      Event.stage3_start,
      Event.stage3_complete ⟨"chair", "final"⟩,
      Event.complete] := by
  have h := (C4_event_order
    ⟨.ok [("m1", some ⟨"a"⟩)],
      .ok [("m1", some ⟨"FINAL RANKING:\n1. Response A"⟩)],
      .ok (some ⟨"final"⟩), .ok (some ⟨"t"⟩)⟩
    (some "chair") false
    [("m1", some ⟨"a"⟩)]
    [("m1", some ⟨"FINAL RANKING:\n1. Response A"⟩)]
    (some ⟨"final"⟩) rfl (by decide) rfl rfl).1
  rw [h]
  rfl

/-- C5: when Stage 1 yields zero successful responses the orchestrator
hard-fails: the stream is `stream_start`, `stage1_start`, then the
"no responses" error surfaced as error events (the inner catch emits
one and the rethrow makes the outer catch emit a second) and nothing
else — no Stage 2 or Stage 3 event and no `complete` event is ever
emitted. -/
theorem C5_stage1_empty_hard_fail (net : CouncilNet)
    (chairmanModel : Option String) (generateTitle : Bool)
    (n1 : List (String × Option QueryResponse))
    (h1 : net.stage1 = .ok n1)
    (hempty : stage1CollectResponses n1 = []) :
    processCouncil net chairmanModel generateTitle =
      [Event.stream_start, Event.stage1_start, Event.error noResponsesMsg,
        Event.error noResponsesMsg] ∧
    Event.stage2_start ∉ processCouncil net chairmanModel generateTitle ∧
    (∀ d l a, Event.stage2_complete d l a ∉
      processCouncil net chairmanModel generateTitle) ∧
    Event.stage3_start ∉ processCouncil net chairmanModel generateTitle ∧
    (∀ d, Event.stage3_complete d ∉
      processCouncil net chairmanModel generateTitle) ∧
    Event.complete ∉ processCouncil net chairmanModel generateTitle := by
  have hcond : (stage1CollectResponses n1).isEmpty = true := by
    simp [List.isEmpty_iff, hempty]
  have hmain : processCouncil net chairmanModel generateTitle =
      [Event.stream_start, Event.stage1_start, Event.error noResponsesMsg,
        Event.error noResponsesMsg] := by
    simp only [processCouncil, processCouncilWithStreaming, h1]
    rw [if_pos hcond]
    simp
  refine ⟨hmain, ?_, ?_, ?_, ?_, ?_⟩ <;> rw [hmain] <;> simp

/-- C5 witness: one model dispatched, its call failed (null), so Stage 1
has zero successes. -/
theorem C5_stage1_empty_hard_fail_witness :
    processCouncil ⟨.ok [("m1", none)], .ok [], .ok none, .ok none⟩
      none false =
      [Event.stream_start, Event.stage1_start, Event.error noResponsesMsg,
        Event.error noResponsesMsg] :=
  (C5_stage1_empty_hard_fail ⟨.ok [("m1", none)], .ok [], .ok none, .ok none⟩
    none false [("m1", none)] rfl (by decide)).1

/-- C8: when the single chairman call of `stage3SynthesizeFinal`
settles to null, the function returns (does not throw) a `Stage3Result`
whose model is the attempted chairman and whose response is the literal
fallback error string, and the previously produced Stage 1 and Stage 2
results are unchanged and still delivered in their events, with the run
completing normally. -/
theorem C8_chairman_fallback (net : CouncilNet)
    (chairmanModel : Option String) (generateTitle : Bool)
    (n1 n2 : List (String × Option QueryResponse))
    (h1 : net.stage1 = .ok n1)
    (hne : stage1CollectResponses n1 ≠ [])
    (h2 : net.stage2 = .ok n2)
    (h3 : net.stage3 = .ok none) :
    stage3SynthesizeFinal chairmanModel none =
      ⟨resolveChairman chairmanModel, synthesisFallbackMsg⟩ ∧
    Event.stage1_complete (stage1CollectResponses n1) ∈
      processCouncil net chairmanModel generateTitle ∧
    Event.stage2_complete
        (stage2CollectRankings (stage1CollectResponses n1) n2).1
        (stage2CollectRankings (stage1CollectResponses n1) n2).2
        (calculateAggregateRankings
          (stage2CollectRankings (stage1CollectResponses n1) n2).1
          (stage2CollectRankings (stage1CollectResponses n1) n2).2) ∈
      processCouncil net chairmanModel generateTitle ∧
    Event.stage3_complete
        ⟨resolveChairman chairmanModel, synthesisFallbackMsg⟩ ∈
      processCouncil net chairmanModel generateTitle ∧
    Event.complete ∈ processCouncil net chairmanModel generateTitle := by
  have hmain := processCouncil_ok_events net chairmanModel generateTitle
    n1 n2 none h1 hne h2 h3
  refine ⟨rfl, ?_, ?_, ?_, ?_⟩ <;> rw [hmain] <;> simp [stage3SynthesizeFinal]

/-- C8 witness: a concrete run whose chairman call failed. -/
theorem C8_chairman_fallback_witness :
    Event.stage3_complete ⟨"chair", synthesisFallbackMsg⟩ ∈
      processCouncil
        ⟨.ok [("m1", some ⟨"a"⟩)],
          .ok [("m1", some ⟨"FINAL RANKING:\n1. Response A"⟩)],
          .ok none, .ok none⟩
        (some "chair") false :=
  (C8_chairman_fallback
    ⟨.ok [("m1", some ⟨"a"⟩)],
      .ok [("m1", some ⟨"FINAL RANKING:\n1. Response A"⟩)],
      .ok none, .ok none⟩
    (some "chair") false
    [("m1", some ⟨"a"⟩)]
    [("m1", some ⟨"FINAL RANKING:\n1. Response A"⟩)]
    rfl (by decide) rfl rfl).2.2.2.1

end LlmCouncil
